import Mathlib

/-!
# Verification of the linkedin-analyzer core

A shallow embedding of the text-repair functions and the cleaning
pipeline of the `linkedin_analyzer` package, with theorems settling the
specification's claims about them.

Python strings are modelled as `String` / `List Char`; the Python
string operations used by the source (`str.replace`, `str.strip`,
`startswith` / `endswith` with slicing) are embedded as executable
functions on `List Char`.  Raw cell values are modelled by the
inductive `Value`; file-system and collaborator behaviour of the
pipeline is an explicit environment (`Env`), and the pipeline's
observable writes are an explicit effect trace.
-/

namespace LinkedinAnalyzer

/-! ## Raw cell values

A raw cell value as the pipeline sees it: an absent value (`vnone`,
Python `None`), the tabular runtime's not-a-number sentinel (`nan`),
a string, an integer, or a value on which the runtime missingness
check raises (`isnaRaises`, e.g. a multi-element array, whose
truth-value conversion raises). -/
inductive Value where
  | vnone
  | nan
  | str (s : String)
  | int (n : Int)
  | isnaRaises
deriving DecidableEq, Repr

/-- The runtime missingness check `pd.isna` together with the coercion
of its result to a boolean: `True` exactly on the not-a-number / null
sentinels, `False` on concrete scalars, and raising on `isnaRaises`. -/
def pdIsnaCheck : Value → Except Unit Bool
  | .vnone => .ok true
  | .nan => .ok true
  | .str _ => .ok false
  | .int _ => .ok false
  | .isnaRaises => .error ()

/-- `is_missing` from `core/text.py`: `None` is missing; otherwise the
runtime check decides, and a raising check conservatively yields
`false`. -/
def is_missing (v : Value) : Bool :=
  if v = .vnone then true
  else
    match pdIsnaCheck v with
    | .ok b => b
    | .error _ => false

/-- Python `str()` on a raw cell value. -/
def pyStr : Value → String
  | .vnone => "None"
  | .nan => "nan"
  | .str s => s
  | .int n => toString n
  | .isnaRaises => "<object>"

/-! ## Python string operations -/

/-- Python whitespace (the ASCII part, which is all the source's data
can contain): space, tab, newline, carriage return, vertical tab,
form feed. -/
def isPySpace (c : Char) : Bool :=
  c = ' ' || c = '\t' || c = '\n' || c = '\r' ||
    c = Char.ofNat 11 || c = Char.ofNat 12

/-- Python `str.strip()`: drop leading and trailing whitespace. -/
def pyStrip (l : List Char) : List Char :=
  ((l.dropWhile isPySpace).reverse.dropWhile isPySpace).reverse

/-- Scanner for `pyReplace`: while `skip` is positive the characters
still belong to the occurrence just replaced and are consumed; at
`skip = 0` an occurrence of `old` starting here is replaced by `new`
and its characters are scheduled for consumption, otherwise the
character is kept. -/
def pyReplaceAux (old new : List Char) : Nat → List Char → List Char
  | _, [] => []
  | skip + 1, _ :: rest => pyReplaceAux old new skip rest
  | 0, c :: rest =>
    if old ≠ [] ∧ old.isPrefixOf (c :: rest) then
      new ++ pyReplaceAux old new (old.length - 1) rest
    else
      c :: pyReplaceAux old new 0 rest

/-- Python `str.replace(old, new)` for a non-empty `old`: scan left to
right, replacing each non-overlapping occurrence of `old` by `new`. -/
def pyReplace (old new s : List Char) : List Char :=
  pyReplaceAux old new 0 s

/-- `text[1:]` guarded by `text.startswith('"')`: drop exactly one
leading quote character if present. -/
def stripLeadQuote (l : List Char) : List Char :=
  if ['"'].isPrefixOf l then l.drop 1 else l

/-- `text[:-1]` guarded by `text.endswith('"')`: drop exactly one
trailing quote character if present. -/
def stripTrailQuote (l : List Char) : List Char :=
  if ['"'].isSuffixOf l then l.take (l.length - 1) else l

/-! ## The three repair functions of `core/text.py` -/

/-- `clean_shares_commentary`: missing becomes empty; otherwise drop
one leading and one trailing quote, replace quote-newline-quote by a
newline, collapse doubled quotes, and strip. -/
def clean_shares_commentary (v : Value) : String :=
  if is_missing v then ""
  else
    let t0 := (pyStr v).toList
    let t1 := stripLeadQuote t0
    let t2 := stripTrailQuote t1
    let t3 := pyReplace ['"', '\n', '"'] ['\n'] t2
    let t4 := pyReplace ['"', '"'] ['"'] t3
    String.mk (pyStrip t4)

/-- `clean_comments_message`: missing becomes empty; otherwise replace
backslash-quote by a bare quote, collapse doubled quotes, and strip. -/
def clean_comments_message (v : Value) : String :=
  if is_missing v then ""
  else
    let t0 := (pyStr v).toList
    let t1 := pyReplace ['\\', '"'] ['"'] t0
    let t2 := pyReplace ['"', '"'] ['"'] t1
    String.mk (pyStrip t2)

/-- `clean_empty_field`: missing becomes empty; otherwise strip, and
map a bare quote pair, a single quote, or the empty string to the
empty string. -/
def clean_empty_field (v : Value) : String :=
  if is_missing v then ""
  else
    let text := String.mk (pyStrip (pyStr v).toList)
    if text = "\"\"" ∨ text = "\"" ∨ text = "" then "" else text

/-! ## Spec-side repair definitions

For the refinement claims about the two repair algorithms, independent
definitions written from the specification's step-by-step wording
(§4.2 and §4.3 of the spec), to be compared with the source-derived
functions above. -/

/-- The Shares-commentary repair as the spec words it: steps 1-7 of
§4.2, each step written directly (leading / trailing quote tested via
`head?` / `getLast?`). -/
def sharesRepairSpec (v : Value) : String :=
  if is_missing v then ""
  else
    let s1 := (pyStr v).toList
    let s2 := if s1.head? = some '"' then s1.tail else s1
    let s3 := if s2.getLast? = some '"' then s2.dropLast else s2
    let s4 := pyReplace ['"', '\n', '"'] ['\n'] s3
    let s5 := pyReplace ['"', '"'] ['"'] s4
    String.mk (pyStrip s5)

/-- The Comments-message repair as the spec words it: steps 1-5 of
§4.3. -/
def commentsRepairSpec (v : Value) : String :=
  if is_missing v then ""
  else
    let s1 := (pyStr v).toList
    let s2 := pyReplace ['\\', '"'] ['"'] s1
    let s3 := pyReplace ['"', '"'] ['"'] s2
    String.mk (pyStrip s3)

/-- The empty-field normalizer as the spec words it (§4.4): empty
string if missing, or if the stripped stringified value equals the
empty string, a single quote character, or two quote characters;
otherwise the stripped stringified value. -/
def emptyFieldSpec (v : Value) : String :=
  if is_missing v then ""
  else
    let t := String.mk (pyStrip (pyStr v).toList)
    if t = "" ∨ t = "\"" ∨ t = "\"\"" then "" else t

/-- Whether `old` occurs as a contiguous subsequence of the list
(executable occurrence test, used to state absence of a pattern). -/
def containsSeq (old : List Char) : List Char → Bool
  | [] => old.isEmpty
  | c :: rest => old.isPrefixOf (c :: rest) || containsSeq old rest

/-! ## The data model of `core/types.py` -/

/-- `ColumnConfig`: one column's name, Excel width, wrap flag, and
optional repair function. -/
structure ColumnConfig where
  name : String
  width : Nat := 20
  wrapText : Bool := false
  cleaner : Option (Value → String) := none

/-- `CleanerConfig`: input and output locations and the ordered column
configurations.  (`csv_kwargs` only parameterises the external reader
and is absorbed into the environment below.) -/
structure CleanerConfig where
  inputPath : String
  outputPath : String
  columns : List ColumnConfig

/-- `CleanerConfig.required_columns`: the projection of column names,
order-preserving. -/
def CleanerConfig.requiredColumns (cfg : CleanerConfig) : List String :=
  cfg.columns.map (fun c => c.name)

/-- `CleanerResult` from `core/types.py`. -/
structure CleanerResult where
  success : Bool
  rowsProcessed : Nat
  inputPath : String
  outputPath : String
  error : Option String := none

/-! ## The tabular dataset

A parsed dataset, column-major: an ordered association of column name
to the column's cell values in row order. -/
structure DataFrame where
  cols : List (String × List Value)
deriving DecidableEq, Repr

/-- `df.columns`: the column names, in order. -/
def DataFrame.columnNames (d : DataFrame) : List String :=
  d.cols.map Prod.fst

/-- `df[name]`: the first column of that name, if any. -/
def DataFrame.getCol (d : DataFrame) (n : String) : Option (List Value) :=
  (d.cols.find? (fun p => p.1 == n)).map Prod.snd

/-- `df[name] = values`: replace the values of every column of that
name. -/
def DataFrame.setCol (d : DataFrame) (n : String) (vs : List Value) : DataFrame :=
  ⟨d.cols.map (fun p => if p.1 == n then (p.1, vs) else p)⟩

/-- `len(df)`: the number of rows (every column has the same length;
the first column's length, or 0 when there are no columns). -/
def DataFrame.nrows (d : DataFrame) : Nat :=
  ((d.cols.head?).map (fun p => p.2.length)).getD 0

/-! ## The cleaning pipeline of `core/cleaner.py` -/

/-- Python `', '.join(names)`. -/
def joinComma : List String → String
  | [] => ""
  | [x] => x
  | x :: y :: rest => x ++ ", " ++ joinComma (y :: rest)

/-- `validate_columns`: the required names absent from the dataset's
columns, in required order. -/
def missingColumns (d : DataFrame) (required : List String) : List String :=
  required.filter (fun c => ¬ c ∈ d.columnNames)

/-- The `ValueError` message `validate_columns` raises. -/
def missingColumnsMsg (missing : List String) : String :=
  "Missing required columns: " ++ joinComma missing

/-- The repair loop of `run_cleaner`: for each column configuration
carrying a cleaner, in configuration order, replace that column by the
elementwise application of the cleaner; a configured column absent
from the dataset raises a `KeyError` (its `str()` is the quoted
name). -/
def applyCleaners (ccs : List ColumnConfig) (d : DataFrame) :
    Except String DataFrame :=
  match ccs with
  | [] => .ok d
  | cc :: rest =>
    match cc.cleaner with
    | none => applyCleaners rest d
    | some f =>
      match d.getCol cc.name with
      | none => .error ("'" ++ cc.name ++ "'")
      | some vs =>
        applyCleaners rest (d.setCol cc.name (vs.map (fun v => Value.str (f v))))

/-- The environment of one pipeline invocation: whether the input
location exists, what the tabular reader returns for it (a dataset or
a read error), and whether the spreadsheet writer / formatter
collaborators raise. -/
structure Env where
  inputExists : Bool
  readResult : Except String DataFrame
  exportError : Option String := none
  formatError : Option String := none

/-- An observable write effect of one pipeline invocation. -/
inductive Effect where
  | mkdirParent
  | writeExcel (d : DataFrame)
  | formatOutput
deriving DecidableEq, Repr

/-- The body of `run_cleaner`'s `try` block: make the output
directory, read, validate, repair, export, format; the first raised
exception aborts with its message, alongside the effects already
performed. -/
def runBody (env : Env) (cfg : CleanerConfig) :
    Except String Nat × List Effect :=
  let effs0 := [Effect.mkdirParent]
  match env.readResult with
  | .error e => (.error e, effs0)
  | .ok df =>
    let missing := missingColumns df cfg.requiredColumns
    if missing = [] then
      match applyCleaners cfg.columns df with
      | .error e => (.error e, effs0)
      | .ok df2 =>
        match env.exportError with
        | some e => (.error e, effs0)
        | none =>
          let effs1 := effs0 ++ [Effect.writeExcel df2]
          match env.formatError with
          | some e => (.error e, effs1)
          | none => (.ok df2.nrows, effs1 ++ [Effect.formatOutput])
    else
      (.error (missingColumnsMsg missing), effs0)

/-- `run_cleaner`: fail outright when the input location does not
exist; otherwise run the body, converting a raised exception into a
failure result carrying its message. -/
def runCleaner (env : Env) (cfg : CleanerConfig) :
    CleanerResult × List Effect :=
  if env.inputExists then
    match runBody env cfg with
    | (.ok n, effs) =>
      ({ success := true, rowsProcessed := n, inputPath := cfg.inputPath,
         outputPath := cfg.outputPath, error := none }, effs)
    | (.error e, effs) =>
      ({ success := false, rowsProcessed := 0, inputPath := cfg.inputPath,
         outputPath := cfg.outputPath, error := some e }, effs)
  else
    ({ success := false, rowsProcessed := 0, inputPath := cfg.inputPath,
       outputPath := cfg.outputPath,
       error := some ("Input file does not exist: " ++ cfg.inputPath) }, [])

/-- `sub` occurs as a contiguous substring of `s`. -/
def strContains (s sub : String) : Prop :=
  ∃ l r : List Char, s.toList = l ++ sub.toList ++ r

/-! ## Concrete fixtures -/

/-- A column configuration whose repair uppercases the stringified
value. -/
def upperColumn : ColumnConfig :=
  { name := "Col",
    cleaner := some (fun v => String.mk ((pyStr v).toList.map Char.toUpper)) }

/-- A one-column, two-row dataset. -/
def helloWorldDF : DataFrame :=
  ⟨[("Col", [Value.str "hello", Value.str "world"])]⟩

/-- A minimal configuration expecting one column named `Col`. -/
def witnessCfg : CleanerConfig :=
  { inputPath := "Shares.csv", outputPath := "Shares.xlsx",
    columns := [{ name := "Col" }] }

/-- An environment whose tabular reader raises. -/
def envReadError : Env :=
  { inputExists := true, readResult := .error "boom" }

/-- An environment whose dataset lacks the `Col` column. -/
def envMissingCol : Env :=
  { inputExists := true, readResult := .ok ⟨[("Other", [])]⟩ }

/-- An environment whose input location does not exist. -/
def envNoInput : Env :=
  { inputExists := false, readResult := .error "unreachable" }

/-! ## Lemmas about the string operations -/

theorem stripLeadQuote_eq (l : List Char) :
    stripLeadQuote l = if l.head? = some '"' then l.tail else l := by
  unfold stripLeadQuote
  cases l with
  | nil => simp [List.isPrefixOf]
  | cons c rest =>
    by_cases hc : c = '"'
    · subst hc; simp [List.isPrefixOf]
    · simp [List.isPrefixOf, hc, Ne.symm hc]

theorem stripTrailQuote_eq (l : List Char) :
    stripTrailQuote l = if l.getLast? = some '"' then l.dropLast else l := by
  unfold stripTrailQuote
  cases hrev : l.reverse with
  | nil =>
    have hl : l = [] := by simpa using congrArg List.reverse hrev
    subst hl
    simp [List.isSuffixOf, List.isPrefixOf]
  | cons c rest =>
    have hl : l = rest.reverse ++ [c] := by
      have := congrArg List.reverse hrev
      simpa using this
    subst hl
    by_cases hc : c = '"'
    · subst hc
      simp [List.isSuffixOf, List.isPrefixOf, List.getLast?_concat,
        List.dropLast_concat, List.take_append_eq_append_take]
    · simp [List.isSuffixOf, List.isPrefixOf, hc, Ne.symm hc,
        List.getLast?_concat]

theorem pyReplaceAux_eq_self (old new : List Char) (s : List Char)
    (h : containsSeq old s = false) : pyReplaceAux old new 0 s = s := by
  induction s with
  | nil => rfl
  | cons c rest ih =>
    rw [containsSeq] at h
    simp only [Bool.or_eq_false_iff] at h
    obtain ⟨h1, h2⟩ := h
    rw [pyReplaceAux, if_neg, ih h2]
    intro hcond
    exact absurd hcond.2 (by simp [h1])

/-- A list without any occurrence of the pattern is left unchanged by
`pyReplace`. -/
theorem pyReplace_eq_self (old new : List Char) (s : List Char)
    (h : containsSeq old s = false) : pyReplace old new s = s :=
  pyReplaceAux_eq_self old new s h

theorem la_dropWhile_dropWhile (p : Char → Bool) (l : List Char) :
    (l.dropWhile p).dropWhile p = l.dropWhile p := by
  induction l with
  | nil => rfl
  | cons c rest ih =>
    by_cases hc : p c
    · simp [List.dropWhile_cons, hc, ih]
    · simp [List.dropWhile_cons, hc]

theorem la_head?_dropWhile (p : Char → Bool) (l : List Char) (c : Char)
    (h : (l.dropWhile p).head? = some c) : p c = false := by
  induction l with
  | nil => simp at h
  | cons d rest ih =>
    by_cases hd : p d
    · rw [List.dropWhile_cons_of_pos hd] at h
      exact ih h
    · rw [List.dropWhile_cons_of_neg hd, List.head?_cons,
        Option.some.injEq] at h
      subst h
      exact Bool.eq_false_iff.mpr hd

theorem la_dropWhile_suffix_exists (p : Char → Bool) (l : List Char) :
    ∃ t, t ++ l.dropWhile p = l := by
  induction l with
  | nil => exact ⟨[], rfl⟩
  | cons c rest ih =>
    by_cases hc : p c
    · obtain ⟨t, ht⟩ := ih
      exact ⟨c :: t, by simp [List.dropWhile_cons, hc, ht]⟩
    · exact ⟨[], by simp [List.dropWhile_cons, hc]⟩

/-- A list whose two ends carry no whitespace is left unchanged by
`pyStrip`. -/
theorem pyStrip_eq_self (l : List Char)
    (h1 : l.dropWhile isPySpace = l)
    (h2 : l.reverse.dropWhile isPySpace = l.reverse) : pyStrip l = l := by
  unfold pyStrip
  rw [h1, h2, List.reverse_reverse]

/-- Stripping is idempotent. -/
theorem pyStrip_idem (l : List Char) : pyStrip (pyStrip l) = pyStrip l := by
  have hk : pyStrip l =
      ((l.dropWhile isPySpace).reverse.dropWhile isPySpace).reverse := rfl
  apply pyStrip_eq_self
  · cases hst : pyStrip l with
    | nil => rfl
    | cons c rest =>
      have hpc : isPySpace c = false := by
        obtain ⟨t, ht⟩ :=
          la_dropWhile_suffix_exists isPySpace (l.dropWhile isPySpace).reverse
        have hm : l.dropWhile isPySpace = pyStrip l ++ t.reverse := by
          rw [hk]
          calc l.dropWhile isPySpace
              = ((l.dropWhile isPySpace).reverse).reverse :=
                (List.reverse_reverse _).symm
            _ = (t ++ (l.dropWhile isPySpace).reverse.dropWhile isPySpace).reverse := by
                rw [ht]
            _ = ((l.dropWhile isPySpace).reverse.dropWhile isPySpace).reverse
                  ++ t.reverse := by
                rw [List.reverse_append]
        apply la_head?_dropWhile isPySpace l c
        rw [hm, hst]
        simp
      exact List.dropWhile_cons_of_neg (by simp [hpc])
  · rw [hk, List.reverse_reverse]
    exact la_dropWhile_dropWhile _ _

theorem la_isPrefixOf_exists {old s : List Char} (h : old.isPrefixOf s) :
    ∃ r, s = old ++ r := by
  induction old generalizing s with
  | nil => exact ⟨s, rfl⟩
  | cons a as ih =>
    cases s with
    | nil => simp [List.isPrefixOf] at h
    | cons b bs =>
      simp only [List.isPrefixOf, Bool.and_eq_true, beq_iff_eq] at h
      obtain ⟨rfl, h2⟩ := h
      obtain ⟨r, hr⟩ := ih h2
      exact ⟨r, by rw [List.cons_append, hr]⟩

theorem pyReplaceAux_skip (old new : List Char) (s : List Char) :
    ∀ skip, pyReplaceAux old new skip s = pyReplaceAux old new 0 (s.drop skip) := by
  induction s with
  | nil => intro skip; cases skip <;> rfl
  | cons c rest ih =>
    intro skip
    cases skip with
    | zero => rfl
    | succ k => simpa [pyReplaceAux] using ih k

/-- A character occurring in neither the pattern nor the replacement
keeps its number of occurrences under `pyReplace`. -/
theorem pyReplace_count (old new : List Char) (c : Char)
    (h1 : ¬ c ∈ old) (h2 : ¬ c ∈ new) (s : List Char) :
    (pyReplace old new s).count c = s.count c := by
  suffices H : ∀ n (s : List Char), s.length ≤ n →
      (pyReplace old new s).count c = s.count c from H s.length s le_rfl
  intro n
  induction n with
  | zero =>
    intro s hs
    rw [List.length_eq_zero.mp (Nat.le_zero.mp hs)]
    rfl
  | succ n ih =>
    intro s hs
    match s with
    | [] => rfl
    | d :: rest =>
      rw [pyReplace, pyReplaceAux]
      by_cases hp : old ≠ [] ∧ old.isPrefixOf (d :: rest)
      · rw [if_pos hp, pyReplaceAux_skip, List.count_append]
        obtain ⟨o, os, rfl⟩ := List.exists_cons_of_ne_nil hp.1
        obtain ⟨r, hr⟩ := la_isPrefixOf_exists hp.2
        have hd : d = o := by
          have := congrArg List.head? hr
          simpa using this
        have hrest : rest = os ++ r := by
          have := congrArg List.tail hr
          simp at this
          exact this
        have hdrop : rest.drop ((o :: os).length - 1) = r := by
          rw [hrest]
          simp only [List.length_cons, Nat.add_sub_cancel]
          exact List.drop_left os r
        have hlen : r.length ≤ n := by
          have h3 : rest.length ≤ n := by
            simpa using Nat.le_of_succ_le_succ (by simpa using hs)
          have h4 : r.length ≤ rest.length := by
            rw [hrest]; simp
          omega
        have ihr := ih r hlen
        rw [pyReplace] at ihr
        rw [hdrop, hr, List.count_append, List.count_eq_zero.mpr h2, ihr,
          List.count_eq_zero.mpr (show ¬ c ∈ o :: os from h1)]
      · rw [if_neg hp]
        have h3 : rest.length ≤ n := by
          simpa using Nat.le_of_succ_le_succ (by simpa using hs)
        have := ih rest h3
        rw [pyReplace] at this
        simp [List.count_cons, this]

/-! ## The repair functions match the spec's algorithms -/

theorem la_is_missing_str (s : String) : is_missing (.str s) = false := by
  simp [is_missing, pdIsnaCheck]

theorem la_toList_mk (x : List Char) : (String.mk x).toList = x := rfl

theorem clean_shares_eq_spec (v : Value) :
    clean_shares_commentary v = sharesRepairSpec v := by
  simp only [clean_shares_commentary, sharesRepairSpec,
    stripLeadQuote_eq, stripTrailQuote_eq]

theorem clean_comments_eq_spec (v : Value) :
    clean_comments_message v = commentsRepairSpec v := rfl

theorem clean_empty_eq_spec (v : Value) :
    clean_empty_field v = emptyFieldSpec v := by
  unfold clean_empty_field emptyFieldSpec
  cases hm : is_missing v
  · simp only [Bool.false_eq_true, if_false]
    split_ifs <;> tauto
  · simp

/-! ## The claims about the text-repair functions -/

/-- C1: the Shares-commentary repair returns the empty string on a
missing value and otherwise performs, in order, the leading-quote
drop, the trailing-quote drop, the quote-newline-quote replacement,
the doubled-quote collapse, and the whitespace strip, as the spec's
§4.2 words it (`sharesRepairSpec`); the spec's three examples hold. -/
theorem shares_commentary_repair_correct :
    (∀ v, clean_shares_commentary v = sharesRepairSpec v) ∧
    (∀ v, is_missing v = true → clean_shares_commentary v = "") ∧
    clean_shares_commentary (.str "\"Hello world\"") = "Hello world" ∧
    clean_shares_commentary (.str "Line 1\"\n\"Line 2") = "Line 1\nLine 2" ∧
    clean_shares_commentary (.str "He said \"\"hello\"\"") = "He said \"hello\"" := by
  refine ⟨clean_shares_eq_spec, ?_, by decide, by decide, by decide⟩
  intro v hm
  simp [clean_shares_commentary, hm]

/-- Witness for C1: the missing case evaluated at `None`. -/
theorem shares_commentary_repair_correct_witness :
    is_missing Value.vnone = true ∧ clean_shares_commentary Value.vnone = "" :=
  ⟨by decide, shares_commentary_repair_correct.2.1 Value.vnone (by decide)⟩

/-- C2: the Comments-message repair returns the empty string on a
missing value and otherwise replaces backslash-quote by a quote, then
collapses doubled quotes, then strips, as the spec's §4.3 words it
(`commentsRepairSpec`); both replacement steps preserve the number of
newline characters, and an input with no backslash-quote, no doubled
quote and no leading or trailing whitespace is returned exactly. -/
theorem comments_message_repair_correct :
    (∀ v, clean_comments_message v = commentsRepairSpec v) ∧
    (∀ v, is_missing v = true → clean_comments_message v = "") ∧
    (∀ s : List Char, (pyReplace ['\\', '"'] ['"'] s).count '\n' = s.count '\n') ∧
    (∀ s : List Char, (pyReplace ['"', '"'] ['"'] s).count '\n' = s.count '\n') ∧
    (∀ s : String,
      containsSeq ['\\', '"'] s.toList = false →
      containsSeq ['"', '"'] s.toList = false →
      s.toList.dropWhile isPySpace = s.toList →
      s.toList.reverse.dropWhile isPySpace = s.toList.reverse →
      clean_comments_message (.str s) = s) ∧
    clean_comments_message (.str "line 1\nline 2\nline 3") = "line 1\nline 2\nline 3" := by
  refine ⟨clean_comments_eq_spec, ?_, ?_, ?_, ?_, by decide⟩
  · intro v hm
    simp [clean_comments_message, hm]
  · intro s
    exact pyReplace_count _ _ _ (by decide) (by decide) s
  · intro s
    exact pyReplace_count _ _ _ (by decide) (by decide) s
  · intro s h1 h2 h3 h4
    simp only [clean_comments_message, la_is_missing_str,
      Bool.false_eq_true, if_false, pyStr]
    rw [pyReplace_eq_self _ _ _ h1, pyReplace_eq_self _ _ _ h2,
      pyStrip_eq_self _ h3 h4]
    rfl

/-- Witness for C2: a 3-line message body with no escaping artifacts
is returned exactly. -/
theorem comments_message_repair_correct_witness :
    containsSeq ['\\', '"'] ("line 1\nline 2\nline 3" : String).toList = false ∧
    clean_comments_message (.str "line 1\nline 2\nline 3") = "line 1\nline 2\nline 3" :=
  ⟨by decide, comments_message_repair_correct.2.2.2.2.1 "line 1\nline 2\nline 3"
    (by decide) (by decide) (by decide) (by decide)⟩

/-- C7: the missing-value predicate is a total boolean function that
holds on `None` and on the not-a-number sentinel, fails on every
string (including empty and whitespace-only) and every integer
(including zero), and returns `false` on any value whose runtime
missingness check raises. -/
theorem is_missing_contract :
    is_missing .vnone = true ∧ is_missing .nan = true ∧
    (∀ s, is_missing (.str s) = false) ∧
    (∀ n : Int, is_missing (.int n) = false) ∧
    (∀ v, pdIsnaCheck v = .error () → is_missing v = false) := by
  refine ⟨by decide, by decide, ?_, ?_, ?_⟩
  · intro s; simp [is_missing, pdIsnaCheck]
  · intro n; simp [is_missing, pdIsnaCheck]
  · intro v h
    cases v <;> simp_all [is_missing, pdIsnaCheck]

/-- Witness for C7: the raising value evaluates to not-missing. -/
theorem is_missing_contract_witness :
    pdIsnaCheck Value.isnaRaises = .error () ∧
    is_missing Value.isnaRaises = false :=
  ⟨rfl, is_missing_contract.2.2.2.2 Value.isnaRaises rfl⟩

/-- C8: the empty-field normalizer agrees everywhere with the spec's
§4.4 description (`emptyFieldSpec`), and the spec's examples hold:
quote pairs, lone quotes, empty and missing values normalize to the
empty string, and other values are stripped. -/
theorem empty_field_normalizer_correct :
    (∀ v, clean_empty_field v = emptyFieldSpec v) ∧
    clean_empty_field (.str "  hello  ") = "hello" ∧
    clean_empty_field (.str "") = "" ∧
    clean_empty_field (.str "\"") = "" ∧
    clean_empty_field (.str "\"\"") = "" ∧
    clean_empty_field .vnone = "" ∧ clean_empty_field .nan = "" :=
  ⟨clean_empty_eq_spec, by decide, by decide, by decide, by decide,
    by decide, by decide⟩

/-- C9: the Shares-commentary repair is not idempotent: on the
doubled-doubled-quote input `a""""b` one application yields `a""b`
and a second application collapses further to `a"b`. -/
theorem shares_commentary_repair_not_idempotent :
    clean_shares_commentary (.str (clean_shares_commentary (.str "a\"\"\"\"b")))
      ≠ clean_shares_commentary (.str "a\"\"\"\"b") ∧
    clean_shares_commentary (.str "a\"\"\"\"b") = "a\"\"b" ∧
    clean_shares_commentary (.str "a\"\"b") = "a\"b" :=
  ⟨by decide, by decide, by decide⟩

/-- C10: the empty-field normalizer is idempotent: applying it to its
own output returns that output unchanged, because the output is either
empty or an already-stripped string distinct from the quote-pair
sentinels. -/
theorem empty_field_normalizer_idempotent (v : Value) :
    clean_empty_field (.str (clean_empty_field v)) = clean_empty_field v := by
  cases hm : is_missing v with
  | true =>
    have hv : clean_empty_field v = "" := by simp [clean_empty_field, hm]
    rw [hv]; decide
  | false =>
    by_cases hset : String.mk (pyStrip (pyStr v).toList) = "\"\"" ∨
        String.mk (pyStrip (pyStr v).toList) = "\"" ∨
        String.mk (pyStrip (pyStr v).toList) = ""
    · have hv : clean_empty_field v = "" := by
        simp only [clean_empty_field, hm, Bool.false_eq_true, if_false]
        exact if_pos hset
      rw [hv]; decide
    · have hv : clean_empty_field v = String.mk (pyStrip (pyStr v).toList) := by
        simp only [clean_empty_field, hm, Bool.false_eq_true, if_false]
        exact if_neg hset
      rw [hv]
      simp only [clean_empty_field, la_is_missing_str, Bool.false_eq_true,
        if_false, pyStr, la_toList_mk, pyStrip_idem]
      exact if_neg hset

/-! ## Lemmas about the pipeline -/

theorem la_toList_append (a b : String) :
    (a ++ b).toList = a.toList ++ b.toList :=
  String.data_append a b

theorem joinComma_cons_cons (x y : String) (rest : List String) :
    joinComma (x :: y :: rest) = x ++ ", " ++ joinComma (y :: rest) := rfl

theorem la_mem_joinComma {c : String} {xs : List String} (h : c ∈ xs) :
    ∃ l r : List Char, (joinComma xs).toList = l ++ c.toList ++ r := by
  induction xs with
  | nil => cases h
  | cons x rest ih =>
    cases rest with
    | nil =>
      have hc : c = x := by simpa using h
      exact ⟨[], [], by simp [joinComma, hc]⟩
    | cons y rest2 =>
      rcases List.mem_cons.mp h with rfl | hmem
      · refine ⟨[], (", " ++ joinComma (y :: rest2)).toList, ?_⟩
        rw [joinComma_cons_cons, la_toList_append, la_toList_append]
        simp [List.append_assoc]
      · obtain ⟨l, r, hlr⟩ := ih hmem
        refine ⟨x.toList ++ ", ".toList ++ l, r, ?_⟩
        rw [joinComma_cons_cons, la_toList_append, la_toList_append, hlr]
        simp [List.append_assoc]

/-! ## The claims about the pipeline: validation and failure modes -/

/-- C3: with an existing input whose dataset lacks at least one
required column, the run fails with zero rows processed, the error
message contains every missing required column name, and no
spreadsheet write effect occurs. -/
theorem runCleaner_missing_columns (env : Env) (cfg : CleanerConfig)
    (df : DataFrame)
    (hex : env.inputExists = true)
    (hread : env.readResult = .ok df)
    (hmiss : missingColumns df cfg.requiredColumns ≠ []) :
    (runCleaner env cfg).1.success = false ∧
    (runCleaner env cfg).1.rowsProcessed = 0 ∧
    (∃ m, (runCleaner env cfg).1.error = some m ∧
      ∀ c ∈ missingColumns df cfg.requiredColumns, strContains m c) ∧
    (∀ d, ¬ Effect.writeExcel d ∈ (runCleaner env cfg).2) := by
  have hbody : runBody env cfg =
      (.error (missingColumnsMsg (missingColumns df cfg.requiredColumns)),
        [Effect.mkdirParent]) := by
    unfold runBody
    rw [hread]
    simp [hmiss]
  have hrun : runCleaner env cfg =
      ({ success := false, rowsProcessed := 0, inputPath := cfg.inputPath,
         outputPath := cfg.outputPath,
         error := some (missingColumnsMsg (missingColumns df cfg.requiredColumns)) },
        [Effect.mkdirParent]) := by
    unfold runCleaner
    rw [hex, hbody]
    rfl
  rw [hrun]
  refine ⟨rfl, rfl, ⟨_, rfl, ?_⟩, ?_⟩
  · intro c hc
    obtain ⟨l, r, hlr⟩ := la_mem_joinComma hc
    refine ⟨("Missing required columns: " : String).toList ++ l, r, ?_⟩
    unfold missingColumnsMsg
    rw [la_toList_append, hlr]
    simp [List.append_assoc]
  · intro d hd
    simp at hd

/-- Witness for C3: a dataset carrying only an `Other` column fails
validation against a configuration requiring `Col`. -/
theorem runCleaner_missing_columns_witness :
    envMissingCol.inputExists = true ∧
    ((runCleaner envMissingCol witnessCfg).1.success = false ∧
     (runCleaner envMissingCol witnessCfg).1.rowsProcessed = 0 ∧
     (∃ m, (runCleaner envMissingCol witnessCfg).1.error = some m ∧
       ∀ c ∈ missingColumns ⟨[("Other", [])]⟩ witnessCfg.requiredColumns,
         strContains m c) ∧
     (∀ d, ¬ Effect.writeExcel d ∈ (runCleaner envMissingCol witnessCfg).2)) :=
  ⟨rfl, runCleaner_missing_columns envMissingCol witnessCfg ⟨[("Other", [])]⟩
    rfl rfl (by decide)⟩

/-- C4: with a nonexistent input location the run fails immediately:
zero rows processed, an error mentioning the input location, and an
empty effect trace (in particular no spreadsheet write). -/
theorem runCleaner_input_absent (env : Env) (cfg : CleanerConfig)
    (hex : env.inputExists = false) :
    (runCleaner env cfg).1.success = false ∧
    (runCleaner env cfg).1.rowsProcessed = 0 ∧
    (∃ m, (runCleaner env cfg).1.error = some m ∧ strContains m cfg.inputPath) ∧
    (runCleaner env cfg).2 = [] ∧
    (∀ d, ¬ Effect.writeExcel d ∈ (runCleaner env cfg).2) := by
  have hrun : runCleaner env cfg =
      ({ success := false, rowsProcessed := 0, inputPath := cfg.inputPath,
         outputPath := cfg.outputPath,
         error := some ("Input file does not exist: " ++ cfg.inputPath) }, []) := by
    unfold runCleaner
    rw [hex]
    rfl
  rw [hrun]
  refine ⟨rfl, rfl, ⟨_, rfl,
    ⟨("Input file does not exist: " : String).toList, [], ?_⟩⟩, rfl, ?_⟩
  · simp [la_toList_append]
  · intro d hd
    simp at hd

/-- Witness for C4: the nonexistent-input environment. -/
theorem runCleaner_input_absent_witness :
    envNoInput.inputExists = false ∧
    ((runCleaner envNoInput witnessCfg).1.success = false ∧
     (runCleaner envNoInput witnessCfg).1.rowsProcessed = 0 ∧
     (∃ m, (runCleaner envNoInput witnessCfg).1.error = some m ∧
       strContains m witnessCfg.inputPath) ∧
     (runCleaner envNoInput witnessCfg).2 = [] ∧
     (∀ d, ¬ Effect.writeExcel d ∈ (runCleaner envNoInput witnessCfg).2)) :=
  ⟨rfl, runCleaner_input_absent envNoInput witnessCfg rfl⟩

/-- C5: the pipeline always returns a result (it is a total function
into `CleanerResult`): every run either succeeds with no error or
fails with some error message, and whenever the body raises an
exception on an existing input, the run returns a failure result
carrying exactly that exception's message. -/
theorem runCleaner_no_exception (env : Env) (cfg : CleanerConfig) :
    ((runCleaner env cfg).1.success = true ∧
       (runCleaner env cfg).1.error = none ∨
     (runCleaner env cfg).1.success = false ∧
       ∃ e, (runCleaner env cfg).1.error = some e) ∧
    (∀ e effs, env.inputExists = true → runBody env cfg = (.error e, effs) →
      (runCleaner env cfg).1.success = false ∧
      (runCleaner env cfg).1.error = some e) := by
  constructor
  · cases hex : env.inputExists with
    | false =>
      right
      unfold runCleaner
      rw [hex]
      exact ⟨rfl, _, rfl⟩
    | true =>
      unfold runCleaner
      rw [hex]
      rcases hb : runBody env cfg with ⟨res, effs⟩
      cases res with
      | ok n => left; exact ⟨rfl, rfl⟩
      | error e => right; exact ⟨rfl, e, rfl⟩
  · intro e effs hex hb
    unfold runCleaner
    rw [hex, hb]
    exact ⟨rfl, rfl⟩

/-- Witness for C5: a raising tabular reader is converted into a
failure result carrying the reader's message. -/
theorem runCleaner_no_exception_witness :
    envReadError.inputExists = true ∧
    runBody envReadError witnessCfg = (.error "boom", [Effect.mkdirParent]) ∧
    ((runCleaner envReadError witnessCfg).1.success = false ∧
     (runCleaner envReadError witnessCfg).1.error = some "boom") :=
  ⟨rfl, rfl,
    (runCleaner_no_exception envReadError witnessCfg).2 "boom"
      [Effect.mkdirParent] rfl rfl⟩

/-! ## Lemmas about dataset columns -/

theorem la_cols_set_names (cols : List (String × List Value))
    (n : String) (vs : List Value) :
    (cols.map (fun p => if p.1 == n then (p.1, vs) else p)).map Prod.fst =
      cols.map Prod.fst := by
  induction cols with
  | nil => rfl
  | cons p rest ih =>
    simp only [List.map_cons, ih]
    congr 1
    by_cases hp : p.1 == n
    · simp [hp]
    · simp [hp]

theorem columnNames_setCol (d : DataFrame) (n : String) (vs : List Value) :
    (d.setCol n vs).columnNames = d.columnNames :=
  la_cols_set_names d.cols n vs

theorem la_mem_fst_tail {p : String × List Value}
    {rest : List (String × List Value)} {n : String}
    (h : n ∈ (p :: rest).map Prod.fst) (hp : ¬ p.1 = n) :
    n ∈ rest.map Prod.fst := by
  have h' : n = p.1 ∨ n ∈ rest.map Prod.fst := by
    simpa only [List.map_cons, List.mem_cons] using h
  rcases h' with h3 | h3
  · exact absurd h3.symm hp
  · exact h3

theorem la_find_set (cols : List (String × List Value))
    (n : String) (vs : List Value) (h : n ∈ cols.map Prod.fst) :
    (((cols.map (fun p => if p.1 == n then (p.1, vs) else p)).find?
        (fun p => p.1 == n)).map Prod.snd) = some vs := by
  induction cols with
  | nil => simp at h
  | cons p rest ih =>
    simp only [List.map_cons]
    by_cases hp : p.1 = n
    · have hupd : (if p.1 == n then (p.1, vs) else p) = (p.1, vs) := by
        simp [hp]
      rw [hupd, List.find?_cons_of_pos _ (by simp [hp])]
      rfl
    · have hupd : (if p.1 == n then (p.1, vs) else p) = p := by
        simp [hp]
      rw [hupd, List.find?_cons_of_neg _ (by simp [hp])]
      exact ih (la_mem_fst_tail h hp)

theorem getCol_setCol_self (d : DataFrame) (n : String) (vs : List Value)
    (h : n ∈ d.columnNames) : (d.setCol n vs).getCol n = some vs :=
  la_find_set d.cols n vs h

theorem la_find_set_ne (cols : List (String × List Value))
    (n m : String) (vs : List Value) (hne : m ≠ n) :
    (((cols.map (fun p => if p.1 == n then (p.1, vs) else p)).find?
        (fun p => p.1 == m)).map Prod.snd) =
      ((cols.find? (fun p => p.1 == m)).map Prod.snd) := by
  induction cols with
  | nil => rfl
  | cons p rest ih =>
    simp only [List.map_cons]
    by_cases hp : p.1 = n
    · have hupd : (if p.1 == n then (p.1, vs) else p) = (p.1, vs) := by
        simp [hp]
      rw [hupd,
        List.find?_cons_of_neg _ (by simp [hp]; exact fun hh => hne hh.symm),
        List.find?_cons_of_neg _ (by simp [hp]; exact fun hh => hne hh.symm)]
      exact ih
    · have hupd : (if p.1 == n then (p.1, vs) else p) = p := by
        simp [hp]
      rw [hupd]
      by_cases hm : p.1 = m
      · rw [List.find?_cons_of_pos _ (by simp [hm]),
          List.find?_cons_of_pos _ (by simp [hm])]
      · rw [List.find?_cons_of_neg _ (by simp [hm]),
          List.find?_cons_of_neg _ (by simp [hm])]
        exact ih

theorem getCol_setCol_ne (d : DataFrame) (n m : String) (vs : List Value)
    (hne : m ≠ n) : (d.setCol n vs).getCol m = d.getCol m :=
  la_find_set_ne d.cols n m vs hne

theorem la_find_mem (cols : List (String × List Value)) (n : String)
    (h : n ∈ cols.map Prod.fst) :
    ∃ vs, ((cols.find? (fun p => p.1 == n)).map Prod.snd) = some vs := by
  induction cols with
  | nil => simp at h
  | cons p rest ih =>
    by_cases hp : p.1 = n
    · refine ⟨p.2, ?_⟩
      rw [List.find?_cons_of_pos _ (by simp [hp])]
      rfl
    · obtain ⟨vs, hvs⟩ := ih (la_mem_fst_tail h hp)
      refine ⟨vs, ?_⟩
      rw [List.find?_cons_of_neg _ (by simp [hp])]
      exact hvs

theorem la_getCol_mem (d : DataFrame) (n : String) (h : n ∈ d.columnNames) :
    ∃ vs, d.getCol n = some vs :=
  la_find_mem d.cols n h

/-- C6: repair application is a pure per-column map: on a validated
dataset (all configured names present, names unique) it succeeds, the
column names are unchanged, every column configured with a repair
function becomes the elementwise map of that function over the
original values in row order, every column that no configuration
repairs is unchanged, and every column keeps its length (no row is
dropped, reordered, or added). -/
theorem repair_application_pure_map (ccs : List ColumnConfig) (df : DataFrame)
    (hnodup : (ccs.map (fun c => c.name)).Nodup)
    (hsub : ∀ cc ∈ ccs, cc.name ∈ df.columnNames) :
    ∃ df', applyCleaners ccs df = .ok df' ∧
      df'.columnNames = df.columnNames ∧
      (∀ cc ∈ ccs, ∀ f, cc.cleaner = some f →
        ∃ vs, df.getCol cc.name = some vs ∧
          df'.getCol cc.name = some (vs.map (fun v => Value.str (f v)))) ∧
      (∀ n, (∀ cc ∈ ccs, cc.name = n → cc.cleaner = none) →
        df'.getCol n = df.getCol n) ∧
      (∀ n vs vs', df.getCol n = some vs → df'.getCol n = some vs' →
        vs'.length = vs.length) := by
  induction ccs generalizing df with
  | nil =>
    refine ⟨df, rfl, rfl, by simp, fun n _ => rfl, ?_⟩
    intro n vs vs' h1 h2
    rw [h1] at h2
    cases h2
    rfl
  | cons cc rest ih =>
    have hnotin : ¬ cc.name ∈ rest.map (fun c => c.name) :=
      (List.nodup_cons.mp hnodup).1
    have hnd2 : (rest.map (fun c => c.name)).Nodup :=
      (List.nodup_cons.mp hnodup).2
    cases hcl : cc.cleaner with
    | none =>
      obtain ⟨df', h1, h2, h3, h4, h5⟩ :=
        ih df hnd2 (fun c hc => hsub c (List.mem_cons_of_mem _ hc))
      refine ⟨df', ?_, h2, ?_, ?_, h5⟩
      · rw [applyCleaners, hcl]
        exact h1
      · intro cc' hcc' f hf
        rcases List.mem_cons.mp hcc' with rfl | hmem
        · rw [hcl] at hf; cases hf
        · exact h3 cc' hmem f hf
      · intro n hn
        exact h4 n (fun cc'' hm hname => hn cc'' (List.mem_cons_of_mem _ hm) hname)
    | some f =>
      have hmemdf : cc.name ∈ df.columnNames := hsub cc (List.mem_cons_self _ _)
      obtain ⟨vs, hvs⟩ := la_getCol_mem df cc.name hmemdf
      have hnames1 : (df.setCol cc.name
          (vs.map (fun v => Value.str (f v)))).columnNames = df.columnNames :=
        columnNames_setCol df cc.name _
      have hsub1 : ∀ c ∈ rest, c.name ∈
          (df.setCol cc.name (vs.map (fun v => Value.str (f v)))).columnNames := by
        rw [hnames1]
        exact fun c hc => hsub c (List.mem_cons_of_mem _ hc)
      obtain ⟨df', h1, h2, h3, h4, h5⟩ :=
        ih (df.setCol cc.name (vs.map (fun v => Value.str (f v)))) hnd2 hsub1
      refine ⟨df', ?_, by rw [h2, hnames1], ?_, ?_, ?_⟩
      · rw [applyCleaners, hcl, hvs]
        exact h1
      · intro cc' hcc' g hg
        rcases List.mem_cons.mp hcc' with rfl | hmem
        · rw [hcl] at hg
          have hfg : f = g := by injection hg
          subst hfg
          refine ⟨vs, hvs, ?_⟩
          have huntouched : df'.getCol cc'.name =
              (df.setCol cc'.name (vs.map (fun v => Value.str (f v)))).getCol
                cc'.name := by
            apply h4
            intro cc'' hm hname
            exact absurd (hname ▸ List.mem_map_of_mem (fun c => c.name) hm) hnotin
          rw [huntouched]
          exact getCol_setCol_self df cc'.name _ hmemdf
        · have hne : cc'.name ≠ cc.name := by
            intro heq
            exact hnotin (heq ▸ List.mem_map_of_mem (fun c => c.name) hmem)
          obtain ⟨vs1, hvs1, hvs1'⟩ := h3 cc' hmem g hg
          refine ⟨vs1, ?_, hvs1'⟩
          rw [← hvs1]
          exact (getCol_setCol_ne df cc.name cc'.name _ hne).symm
      · intro n hn
        have hne : n ≠ cc.name := by
          intro heq
          have := hn cc (List.mem_cons_self _ _) heq.symm
          rw [hcl] at this
          cases this
        have huntouched : df'.getCol n =
            (df.setCol cc.name (vs.map (fun v => Value.str (f v)))).getCol n :=
          h4 n (fun cc'' hm hname => hn cc'' (List.mem_cons_of_mem _ hm) hname)
        rw [huntouched]
        exact getCol_setCol_ne df cc.name n _ hne
      · intro n ws ws' hw hw'
        by_cases hq : n = cc.name
        · have hws : ws = vs := by
            rw [hq, hvs] at hw
            injection hw with hw2
            exact hw2.symm
          have hd1 : (df.setCol cc.name (vs.map (fun v => Value.str (f v)))).getCol
              cc.name = some (vs.map (fun v => Value.str (f v))) :=
            getCol_setCol_self df cc.name _ hmemdf
          have hlen := h5 cc.name _ ws' hd1 (by rw [← hq]; exact hw')
          rw [hlen, hws]
          simp
        · have hd1 : (df.setCol cc.name (vs.map (fun v => Value.str (f v)))).getCol n
              = df.getCol n :=
            getCol_setCol_ne df cc.name n _ hq
          exact h5 n ws ws' (by rw [hd1]; exact hw) hw'

/-- Witness for C6: an uppercasing repair applied to the rows `hello`,
`world` yields `HELLO`, `WORLD` in order; the hypotheses (unique
configured names, all present in the dataset) hold for the concrete
configuration. -/
theorem repair_application_pure_map_witness :
    (([upperColumn].map (fun c => c.name)).Nodup ∧
      ∀ cc ∈ [upperColumn], cc.name ∈ helloWorldDF.columnNames) ∧
    (∃ df', applyCleaners [upperColumn] helloWorldDF = .ok df' ∧
      df'.columnNames = helloWorldDF.columnNames ∧
      (∀ cc ∈ [upperColumn], ∀ f, cc.cleaner = some f →
        ∃ vs, helloWorldDF.getCol cc.name = some vs ∧
          df'.getCol cc.name = some (vs.map (fun v => Value.str (f v)))) ∧
      (∀ n, (∀ cc ∈ [upperColumn], cc.name = n → cc.cleaner = none) →
        df'.getCol n = helloWorldDF.getCol n) ∧
      (∀ n vs vs', helloWorldDF.getCol n = some vs → df'.getCol n = some vs' →
        vs'.length = vs.length)) ∧
    applyCleaners [upperColumn] helloWorldDF =
      .ok ⟨[("Col", [Value.str "HELLO", Value.str "WORLD"])]⟩ :=
  ⟨⟨by decide, by decide⟩,
    repair_application_pure_map [upperColumn] helloWorldDF (by decide) (by decide),
    rfl⟩

end LinkedinAnalyzer
